import Mathlib

/-!
Verification of the ADM2 daily risk pipeline (`src/pipeline.py`).

The pipeline's arithmetic is embedded over `ℚ`: the source computes with
IEEE doubles, and every formula it evaluates is a rational arithmetic
expression, so exact rational arithmetic realizes the same formulas; the
source's guards against non-finite values (`np.isfinite`, `replace(inf)`,
`fillna` after arithmetic on finite data) are vacuous in this embedding and
are noted where they occur.  A pandas series with possible missing values
(`NaN`) is embedded as `List (Option ℚ)` with `none` for `NaN`; a series
known to be fully numeric (after an explicit `fillna`) is `List ℚ`.
-/

namespace Pipeline

/-- One row of the `final` table: the normalized signals consumed by the
composite index engine — `V30`, `dV30`, `S`, `CAST`, `A`, `MVI` for the PRS
branches and `V3m` for DCR (pipeline.py lines 841-854). -/
structure Row where
  V30 : ℚ
  dV30 : ℚ
  S : ℚ
  CAST : ℚ
  A : ℚ
  MVI : ℚ
  V3m : ℚ
deriving DecidableEq

/-- The `w_prs_cast` weighted sum used by `compute_prs_row` when `CAST > 0`
(pipeline.py lines 865 and 871-872). -/
def prs_cast_formula (r : Row) : ℚ :=
  r.V30 * 0.30 + r.dV30 * 0.25 + r.S * 0.10 + r.CAST * 0.18 + r.A * 0.12 + r.MVI * 0.05

/-- The `w_prs_nocast` weighted sum used by `compute_prs_row` when `CAST <= 0`
(pipeline.py lines 866 and 875-876). -/
def prs_nocast_formula (r : Row) : ℚ :=
  r.V30 * 0.40 + r.dV30 * 0.30 + r.S * 0.10 + r.A * 0.12 + r.MVI * 0.08

/-- `compute_prs_row` (pipeline.py lines 868-876): selects one of the two
weight vectors on `r.get("CAST", 0) > 0`. -/
def compute_prs_row (r : Row) : ℚ :=
  if r.CAST > 0 then prs_cast_formula r else prs_nocast_formula r

/-- `final["DCR"]` (pipeline.py lines 864, 878-879). -/
def DCR (r : Row) : ℚ :=
  r.V3m * 0.35 + r.S * 0.15 + r.A * 0.30 + r.MVI * 0.20

/-- `final["priority100"] = 100*(0.6*final["PRS"] + 0.4*final["DCR"])`
(pipeline.py line 884). -/
def priority100 (r : Row) : ℚ :=
  100 * (0.6 * compute_prs_row r + 0.4 * DCR r)

/-- `acled_metrics["v30"]` (pipeline.py lines 700-702): 30-day violent events
per 100k exposed population, forced to exactly 0 when `pop_wra <= 0`
(`np.where(den > 0, 1e5 * events30 / den, 0.0)`). -/
def v30 (events30 pop_wra : ℚ) : ℚ :=
  if pop_wra > 0 then 100000 * events30 / pop_wra else 0

/-- `acled_metrics["v3m"]` (pipeline.py lines 703-705): 90-day rate with the
same zero-population guard. -/
def v3m (events_90v pop_wra : ℚ) : ℚ :=
  if pop_wra > 0 then 100000 * events_90v / pop_wra else 0

/-- `acled_metrics["v30_prev"]` (pipeline.py lines 706-708): prior-30-day rate
with the same zero-population guard. -/
def v30_prev (events_prevv pop_wra : ℚ) : ℚ :=
  if pop_wra > 0 then 100000 * events_prevv / pop_wra else 0

/-- States the persisted run-metadata file (`acled_meta.json`) can be in when
`_read_meta` opens it (pipeline.py lines 223-230): absent, present but
unreadable (an `open`/read error), present but not valid JSON, or valid with
an optional `end_allowed` recency-cutoff date (dates are embedded as `ℤ`). -/
inductive MetaFile where
  | missing
  | unreadable
  | corruptJson
  | valid (end_allowed : Option ℤ)
deriving DecidableEq

/-- `_read_meta` followed by `meta.get("end_allowed")` (pipeline.py lines
223-230 and 537): any failure to read or parse yields the empty dict `{}`,
whose lookup yields `None`. -/
def read_meta : MetaFile → Option ℤ
  | .missing => none
  | .unreadable => none
  | .corruptJson => none
  | .valid e => e

/-- `can_use_cache` (pipeline.py lines 538-541): both cached event tables
exist and the persisted cutoff equals the currently resolved cutoff. -/
def can_use_cache (events_exists events_prev_exists : Bool)
    (last_end_allowed : Option ℤ) (end_allowed : ℤ) : Bool :=
  events_exists && events_prev_exists &&
    decide (last_end_allowed = some end_allowed)

/-- `do_refresh_acled = ACLED_REFRESH and not can_use_cache`
(pipeline.py line 542). -/
def do_refresh_acled (acled_refresh cache_ok : Bool) : Bool :=
  acled_refresh && !cache_ok

/-- `np.nanquantile(s, q)` with the default linear interpolation method,
applied to a fully numeric list (the callers pass the non-`NaN` values):
sort, set `h = q * (n - 1)`, and interpolate between the values at indices
`⌊h⌋` and `⌊h⌋ + 1` (the latter clamped to the last value when out of
range, which only happens with interpolation coefficient 0). -/
def quantile (l : List ℚ) (q : ℚ) : ℚ :=
  let v := List.insertionSort (· ≤ ·) l
  if v.length = 0 then 0
  else
    let h : ℚ := q * ((v.length : ℚ) - 1)
    let i : ℕ := (⌊h⌋).toNat
    let lo := v.getD i 0
    let hi := v.getD (i + 1) lo
    lo + (h - (i : ℚ)) * (hi - lo)

/-- `winsor01_series` (pipeline.py lines 82-90).  `none` entries embed `NaN`
(the result of `pd.to_numeric(..., errors="coerce")` on non-numeric input);
`s.notna().sum() == 0` is `filterMap id = []`.  The source's
`np.isfinite` checks on the two quantiles are vacuous over `ℚ`; `np.clip`
with `a <= b` is `min (max v a) b`.  In the non-degenerate branch `NaN`
entries stay `NaN`, which `Option.map` reproduces. -/
def winsor01_series (s : List (Option ℚ)) : List (Option ℚ) :=
  let vals := s.filterMap id
  if vals.isEmpty then s.map (fun _ => some 0)
  else
    let a := quantile vals (5 / 100)
    let b := quantile vals (95 / 100)
    if b ≤ a then s.map (fun _ => some 0)
    else s.map (Option.map (fun v => (min (max v a) b - a) / (b - a)))

/-- The inline CAST normalization (pipeline.py lines 799-801): quantile-clip
the raw per-region forecast totals and rescale when the window is
non-degenerate (`b > a`); otherwise the source assigns the scalar `0.5` to
every row of the `cast_state` column.  `cast_raw` was `fillna(0)` at line
498, so the input list is fully numeric. -/
def cast_state_norm (cast_raw : List ℚ) : List ℚ :=
  let a := quantile cast_raw (5 / 100)
  let b := quantile cast_raw (95 / 100)
  if a < b then cast_raw.map (fun v => (min (max v a) b - a) / (b - a))
  else cast_raw.map (fun _ => 1 / 2)

/-- `pd.Series.median()` with the default `skipna=True`, applied to a fully
numeric list (callers drop the `NaN`s first); `none` on an empty list embeds
the `NaN` median of an all-`NaN` series. -/
def series_median (l : List ℚ) : Option ℚ :=
  let v := List.insertionSort (· ≤ ·) l
  if v.length = 0 then none
  else if v.length % 2 = 1 then some (v.getD (v.length / 2) 0)
  else some ((v.getD (v.length / 2 - 1) 0 + v.getD (v.length / 2) 0) / 2)

/-- `med_wra` with its use-site guard (pipeline.py lines 856-857):
`final["pop_wra"].replace(0, np.nan).median()` is the median over the
nonzero populations (`none`, i.e. `NaN`, if there are none, and `NaN` is
truthy in Python but fails `> 0`), and the denominator is
`med_wra if med_wra and med_wra > 0 else 1`. -/
def med_wra (pops : List ℚ) : ℚ :=
  match series_median (pops.filter (fun p => p ≠ 0)) with
  | some m => if 0 < m then m else 1
  | none => 1

/-- The square of `final["w_exposure"]` (pipeline.py lines 857-859).  The
source computes `np.clip(np.sqrt(p' / med), 0.5, 2.0)` where
`p' = pop_wra.replace(0, 1)`, then replaces non-finite results by `1.0` (a
no-op here: `p'` and `med` are finite and `p' / med >= 0` for population
data, and the guard makes `med > 0`).  Since `t ↦ t ^ 2` is a strictly
monotone bijection on `[0, ∞)` and `sqrt` is irrational in general, we embed
the exact square of the weight: `clip(sqrt(y), 0.5, 2.0) ^ 2 =
clip(y, 0.25, 4.0)` for `y ≥ 0`, so two weights are equal iff these squares
are. -/
def w_exposure_sq (pops : List ℚ) : List ℚ :=
  let m := med_wra pops
  pops.map (fun p =>
    let pr := if p = 0 then 1 else p
    min (max (pr / m) (1 / 4)) 4)

/-- Modelled from the spec sentence of claim C8 (the claimed formula, for
comparison with `w_exposure_sq`): the square of
`clip(sqrt(pop_wra / median(pop_wra over units with pop_wra > 0)), 0.5, 2.0)`,
i.e. `clip(pop_wra / med, 0.25, 4.0)` with no zero-replacement of the
numerator. -/
def w_exposure_sq_spec (pops : List ℚ) : List ℚ :=
  let m := med_wra pops
  pops.map (fun p => min (max (p / m) (1 / 4)) 4)

/-- Neighbor count of unit `i` in the queen-contiguity graph: the number of
nonzero entries of row `i` of the binary adjacency matrix built by
`Queen.from_dataframe` (pipeline.py line 732). -/
def deg {n : ℕ} (adj : Fin n → Fin n → Bool) (i : Fin n) : ℕ :=
  (Finset.univ.filter (fun j => adj i j = true)).card

/-- Entry `(i, j)` of the row-standardized weight matrix
(`wq.transform = "R"`, pipeline.py line 734): `1 / deg i` on neighbors, `0`
elsewhere; a row with no neighbors is all-zero. -/
def rowWeight {n : ℕ} (adj : Fin n → Fin n → Bool) (i j : Fin n) : ℚ :=
  if adj i j = true then 1 / (deg adj i : ℚ) else 0

/-- `S = wq.sparse.dot(g["v30"].to_numpy())` (pipeline.py line 735): the
row-standardized adjacency matrix applied to the vector of current 30-day
rates. -/
def spillover {n : ℕ} (adj : Fin n → Fin n → Bool) (rate : Fin n → ℚ)
    (i : Fin n) : ℚ :=
  ∑ j, rowWeight adj i j * rate j

/-- The key column produced by one pandas `merge(..., how="left")` of the
current row set against a right table keyed by unit code: each left row is
repeated once per matching right row, or kept once with no match.  Unit
codes are embedded as `ℕ`, signal values as `ℚ`. -/
def leftMergeKeys (rows : List ℕ) (right : List (ℕ × ℚ)) : List ℕ :=
  rows.flatMap (fun k =>
    let ms := right.filter (fun kv => kv.1 = k)
    if ms.isEmpty then [k] else ms.map (fun _ => k))

/-- One pandas `merge(..., how="left")` followed by the `fillna(0.0)` of
pipeline.py lines 838-839: a left row with no match keeps its key and gets
the default signal value `0`. -/
def leftMergeFill (rows : List ℕ) (right : List (ℕ × ℚ)) : List (ℕ × ℚ) :=
  rows.flatMap (fun k =>
    let ms := right.filter (fun kv => kv.1 = k)
    if ms.isEmpty then [(k, 0)] else ms.map (fun kv => (k, kv.2)))

/-- The key column of the `final` table (pipeline.py lines 830-836): the
Administrative Registry's unit list left-merged in sequence against the
signal tables (population/metrics, spillover, forecast, poverty). -/
def final_keys (registry : List ℕ) (tables : List (List (ℕ × ℚ))) : List ℕ :=
  tables.foldl leftMergeKeys registry

/-- Concrete contiguity fixture: the three-unit path `U0 - U1 - U2` of the
spec's end-to-end scenario. -/
def adj3 : Fin 3 → Fin 3 → Bool := fun i j =>
  (i.val == 0 && j.val == 1) || (i.val == 1 && j.val == 0) ||
  (i.val == 1 && j.val == 2) || (i.val == 2 && j.val == 1)

/-- Concrete 30-day rate vector for the fixture: one event in `U0` with
population 1000 gives rate 100; the other units have rate 0. -/
def rate3 : Fin 3 → ℚ := fun i => if i.val = 0 then 100 else 0

theorem quantile_const (l : List ℚ) (c q : ℚ) (hl : l ≠ [])
    (hc : ∀ x ∈ l, x = c) (hq0 : 0 ≤ q) (hq1 : q ≤ 1) :
    quantile l q = c := by
  have hperm := List.perm_insertionSort (α := ℚ) (· ≤ ·) l
  simp only [quantile]
  set v := List.insertionSort (· ≤ ·) l with hv
  have hlen : v.length = l.length := hperm.length_eq
  have hne : v.length ≠ 0 := by
    rw [hlen]
    simpa [List.length_eq_zero] using hl
  rw [if_neg hne]
  have hcv : ∀ x ∈ v, x = c := fun x hx => hc x (hperm.mem_iff.mp hx)
  have h1 : 1 ≤ v.length := Nat.one_le_iff_ne_zero.mpr hne
  have hnn : (0 : ℚ) ≤ (v.length : ℚ) - 1 := by
    have h1q : (1 : ℚ) ≤ (v.length : ℚ) := by exact_mod_cast h1
    linarith
  have hble : q * ((v.length : ℚ) - 1) ≤ (v.length : ℚ) - 1 := by
    nlinarith
  have hfloor : ⌊q * ((v.length : ℚ) - 1)⌋ ≤ (v.length : ℤ) - 1 := by
    have h2 : ((v.length : ℚ) - 1) = (((v.length : ℤ) - 1 : ℤ) : ℚ) := by
      push_cast
      ring
    calc ⌊q * ((v.length : ℚ) - 1)⌋ ≤ ⌊((v.length : ℚ) - 1)⌋ :=
          Int.floor_le_floor hble
      _ = (v.length : ℤ) - 1 := by rw [h2, Int.floor_intCast]
  have hidx : (⌊q * ((v.length : ℚ) - 1)⌋).toNat < v.length := by omega
  have hlo : v.getD (⌊q * ((v.length : ℚ) - 1)⌋).toNat 0 = c := by
    rw [List.getD_eq_getElem _ _ hidx]
    exact hcv _ (List.getElem_mem _)
  rw [hlo]
  have hhi : v.getD ((⌊q * ((v.length : ℚ) - 1)⌋).toNat + 1) c = c := by
    by_cases hi2 : (⌊q * ((v.length : ℚ) - 1)⌋).toNat + 1 < v.length
    · rw [List.getD_eq_getElem _ _ hi2]
      exact hcv _ (List.getElem_mem _)
    · rw [List.getD_eq_default _ _ (by omega)]
  rw [hhi]
  ring

theorem filterMap_id_replicate (n : ℕ) (c : ℚ) :
    (List.replicate n (some c)).filterMap id = List.replicate n c := by
  induction n with
  | zero => rfl
  | succ k ih => simp [List.replicate_succ, ih]

theorem mergeKeys_of_nodup (right : List (ℕ × ℚ))
    (hr : (right.map Prod.fst).Nodup) (rows : List ℕ) :
    leftMergeKeys rows right = rows := by
  have hone : ∀ k : ℕ,
      (if (right.filter (fun kv => kv.1 = k)).isEmpty then [k]
       else (right.filter (fun kv => kv.1 = k)).map (fun _ => k)) = [k] := by
    intro k
    induction right with
    | nil => rfl
    | cons a t ih =>
      rw [List.map_cons, List.nodup_cons] at hr
      by_cases ha : a.1 = k
      · have htf : t.filter (fun kv => kv.1 = k) = [] := by
          rw [List.filter_eq_nil_iff]
          intro kv hkv hk
          exact hr.1 (ha ▸ (by simpa using hk) ▸ List.mem_map_of_mem Prod.fst hkv)
        simp [List.filter_cons, ha, htf]
      · have := ih hr.2
        simpa [List.filter_cons, ha] using this
  induction rows with
  | nil => rfl
  | cons r t ih =>
    simp only [leftMergeKeys, List.flatMap_cons] at ih ⊢
    rw [hone r, ih]
    rfl

/-- C1: `compute_prs_row` selects exactly one of the two weight vectors on
`CAST > 0`, with the weights of the claim; on the SAME base signals the two
branches are not always different when `CAST` is nonzero, but there exist
base signals with nonzero `CAST` on which they differ (the two weightings
are genuinely distinct formulas). -/
theorem c1_branch_selection :
    (∀ r : Row, compute_prs_row r =
      if 0 < r.CAST then
        0.30 * r.V30 + 0.25 * r.dV30 + 0.10 * r.S + 0.18 * r.CAST +
          0.12 * r.A + 0.05 * r.MVI
      else
        0.40 * r.V30 + 0.30 * r.dV30 + 0.10 * r.S + 0.12 * r.A + 0.08 * r.MVI) ∧
    (∃ r : Row, r.CAST ≠ 0 ∧
      0.30 * r.V30 + 0.25 * r.dV30 + 0.10 * r.S + 0.18 * r.CAST +
          0.12 * r.A + 0.05 * r.MVI ≠
        0.40 * r.V30 + 0.30 * r.dV30 + 0.10 * r.S + 0.12 * r.A + 0.08 * r.MVI) := by
  constructor
  · intro r
    simp only [compute_prs_row, prs_cast_formula, prs_nocast_formula]
    split <;> ring
  · refine ⟨Row.mk 0 0 0 1 0 0 0, ?_, ?_⟩ <;> norm_num

/-- C1, counterexample to the claim as stated: at base signals
`V30 = 0.9, dV30 = 0, S = 0, CAST = 0.5, A = 0, MVI = 0` the forecast signal
is nonzero yet both weight vectors evaluate to the same PRS, `0.36`. -/
theorem c1_counterexample :
    (Row.mk (9/10) 0 0 (1/2) 0 0 0).CAST ≠ 0 ∧
    prs_cast_formula (Row.mk (9/10) 0 0 (1/2) 0 0 0) =
      prs_nocast_formula (Row.mk (9/10) 0 0 (1/2) 0 0 0) := by
  constructor
  · norm_num
  · norm_num [prs_cast_formula, prs_nocast_formula]

/-- C2: whenever every normalized component of a unit's row lies in `[0,1]`,
the blended score `priority100 = 100*(0.6*PRS + 0.4*DCR)` lies in `[0,100]`
(each weight vector sums to at most 1, so each of PRS and DCR lies in
`[0,1]`). -/
theorem c2_priority100_bounds (r : Row)
    (h1 : 0 ≤ r.V30) (h2 : r.V30 ≤ 1) (h3 : 0 ≤ r.dV30) (h4 : r.dV30 ≤ 1)
    (h5 : 0 ≤ r.S) (h6 : r.S ≤ 1) (h7 : 0 ≤ r.CAST) (h8 : r.CAST ≤ 1)
    (h9 : 0 ≤ r.A) (h10 : r.A ≤ 1) (h11 : 0 ≤ r.MVI) (h12 : r.MVI ≤ 1)
    (h13 : 0 ≤ r.V3m) (h14 : r.V3m ≤ 1) :
    0 ≤ priority100 r ∧ priority100 r ≤ 100 := by
  have hprs : 0 ≤ compute_prs_row r ∧ compute_prs_row r ≤ 1 := by
    simp only [compute_prs_row, prs_cast_formula, prs_nocast_formula]
    split <;> constructor <;> nlinarith
  have hdcr : 0 ≤ DCR r ∧ DCR r ≤ 1 := by
    simp only [DCR]
    constructor <;> nlinarith
  simp only [priority100]
  constructor <;> nlinarith [hprs.1, hprs.2, hdcr.1, hdcr.2]

/-- C2 witness: a concrete row with all components `1/2` has
`priority100` inside `[0, 100]`. -/
theorem c2_witness :
    0 ≤ priority100 (Row.mk (1/2) (1/2) (1/2) (1/2) (1/2) (1/2) (1/2)) ∧
    priority100 (Row.mk (1/2) (1/2) (1/2) (1/2) (1/2) (1/2) (1/2)) ≤ 100 :=
  c2_priority100_bounds (Row.mk (1/2) (1/2) (1/2) (1/2) (1/2) (1/2) (1/2))
    (by norm_num) (by norm_num) (by norm_num) (by norm_num) (by norm_num)
    (by norm_num) (by norm_num) (by norm_num) (by norm_num) (by norm_num)
    (by norm_num) (by norm_num) (by norm_num) (by norm_num)

/-- C3: each of the three population-normalized rates is exactly 0 whenever
`pop_wra <= 0`, regardless of the event count (no division occurs), and
equals `100000 * count / pop_wra` whenever `pop_wra > 0`. -/
theorem c3_rate_zero_pop_guard (count30 count90 countPrev pop : ℚ) :
    (pop ≤ 0 →
      v30 count30 pop = 0 ∧ v3m count90 pop = 0 ∧ v30_prev countPrev pop = 0) ∧
    (0 < pop →
      v30 count30 pop = 100000 * count30 / pop ∧
      v3m count90 pop = 100000 * count90 / pop ∧
      v30_prev countPrev pop = 100000 * countPrev / pop) := by
  constructor
  · intro h
    refine ⟨?_, ?_, ?_⟩ <;>
      simp [v30, v3m, v30_prev, not_lt.mpr h]
  · intro h
    refine ⟨?_, ?_, ?_⟩ <;>
      simp [v30, v3m, v30_prev, h]

/-- C3 witness: a unit with zero exposed population and 7/5/2 events in the
three windows has all three rates exactly 0, while a unit with positive
population gets the usual per-100k rate. -/
theorem c3_witness :
    (v30 7 0 = 0 ∧ v3m 5 0 = 0 ∧ v30_prev 2 0 = 0) ∧
    v30 3 2 = 100000 * 3 / 2 :=
  ⟨(c3_rate_zero_pop_guard 7 5 2 0).1 le_rfl,
   ((c3_rate_zero_pop_guard 3 0 0 2).2 (by norm_num)).1⟩

/-- C5: the refresh decision is
`ACLED_REFRESH && !(both cached tables exist && persisted cutoff = current)`;
with refresh disabled no fetch is invoked, and with cached outputs and an
equal persisted cutoff no fetch is invoked either. -/
theorem c5_refresh_decision (acled_refresh events_exists prev_exists : Bool)
    (last : Option ℤ) (cur : ℤ) :
    do_refresh_acled acled_refresh
        (can_use_cache events_exists prev_exists last cur)
      = (acled_refresh &&
         !(events_exists && prev_exists && decide (last = some cur))) ∧
    (acled_refresh = false →
      do_refresh_acled acled_refresh
        (can_use_cache events_exists prev_exists last cur) = false) ∧
    (can_use_cache events_exists prev_exists last cur = true →
      do_refresh_acled acled_refresh
        (can_use_cache events_exists prev_exists last cur) = false) := by
  refine ⟨rfl, ?_, ?_⟩
  · intro h
    rw [h]
    rfl
  · intro h
    rw [do_refresh_acled, h]
    simp

/-- C5 witness: with both cached tables present and the persisted cutoff
equal to the current one, the fetch is skipped both when refresh is disabled
and when it is enabled. -/
theorem c5_witness :
    (do_refresh_acled false (can_use_cache true true (some 5) 5) = false) ∧
    (can_use_cache true true (some 5) 5 = true ∧
     do_refresh_acled true (can_use_cache true true (some 5) 5) = false) :=
  ⟨(c5_refresh_decision false true true (some 5) 5).2.1 rfl,
   by decide,
   (c5_refresh_decision true true true (some 5) 5).2.2 (by decide)⟩

/-- C10: a missing, unreadable, or corrupt metadata file reads as the empty
record (`read_meta` is total, so the run proceeds), and with no persisted
cutoff the cached-outputs reuse condition is false, so the decision falls
through to a fresh fetch exactly when refresh is enabled. -/
theorem c10_read_meta_defaults :
    (read_meta .missing = none ∧ read_meta .unreadable = none ∧
     read_meta .corruptJson = none) ∧
    (∀ f : MetaFile, read_meta f = none →
      ∀ (e p refreshFlag : Bool) (cur : ℤ),
        can_use_cache e p (read_meta f) cur = false ∧
        do_refresh_acled refreshFlag (can_use_cache e p (read_meta f) cur)
          = refreshFlag) := by
  refine ⟨⟨rfl, rfl, rfl⟩, ?_⟩
  intro f hf e p refreshFlag cur
  rw [hf]
  refine ⟨?_, ?_⟩
  · simp [can_use_cache]
  · simp [can_use_cache, do_refresh_acled]

/-- C4: for a unit with at least one neighbor the row-standardized adjacency
weights sum to 1 and the spillover is the arithmetic mean of the neighbors'
30-day rates; for a unit with no neighbors the spillover is exactly 0 (and
the computation is total, not an error). -/
theorem c4_spillover_row_normalized (n : ℕ) (adj : Fin n → Fin n → Bool)
    (rate : Fin n → ℚ) (i : Fin n) :
    (0 < deg adj i →
      (∑ j, rowWeight adj i j) = 1 ∧
      spillover adj rate i =
        (∑ j ∈ Finset.univ.filter (fun j => adj i j = true), rate j) /
          (deg adj i : ℚ)) ∧
    (deg adj i = 0 → spillover adj rate i = 0) := by
  constructor
  · intro hd
    have hdq : ((deg adj i : ℚ)) ≠ 0 := by
      exact_mod_cast Nat.pos_iff_ne_zero.mp hd
    constructor
    · have h1 : (∑ j, rowWeight adj i j)
          = ∑ j ∈ Finset.univ.filter (fun j => adj i j = true),
              1 / (deg adj i : ℚ) := by
        rw [Finset.sum_filter]
        exact Finset.sum_congr rfl (fun j _ => by simp [rowWeight])
      rw [h1, Finset.sum_const, nsmul_eq_mul]
      have hcard : ((Finset.univ.filter (fun j => adj i j = true)).card : ℚ)
          = (deg adj i : ℚ) := rfl
      rw [hcard]
      field_simp
    · have h2 : spillover adj rate i
          = ∑ j ∈ Finset.univ.filter (fun j => adj i j = true),
              rate j / (deg adj i : ℚ) := by
        rw [spillover, Finset.sum_filter]
        refine Finset.sum_congr rfl (fun j _ => ?_)
        by_cases hj : adj i j = true
        · simp [rowWeight, hj]
          ring
        · simp [rowWeight, hj]
      rw [h2, ← Finset.sum_div]
  · intro hd
    have hadj : ∀ j, ¬(adj i j = true) := by
      intro j hj
      have hmem : j ∈ Finset.univ.filter (fun j => adj i j = true) := by
        simp [hj]
      unfold deg at hd
      rw [Finset.card_eq_zero.mp hd] at hmem
      exact absurd hmem (Finset.not_mem_empty j)
    simp [spillover, rowWeight, hadj]

/-- C4 witness: in the three-unit path `U0 - U1 - U2` with rates
`(100, 0, 0)`, the middle unit has two neighbors, its row weights sum to 1,
and its spillover is the neighbor average `(100 + 0)/2 = 50`. -/
theorem c4_witness :
    0 < deg adj3 1 ∧
    ((∑ j, rowWeight adj3 1 j) = 1 ∧
      spillover adj3 rate3 1 =
        (∑ j ∈ Finset.univ.filter (fun j => adj3 1 j = true), rate3 j) /
          (deg adj3 1 : ℚ)) ∧
    spillover adj3 rate3 1 = 50 := by
  have h := (c4_spillover_row_normalized 3 adj3 rate3 1).1 (by decide)
  refine ⟨by decide, h, ?_⟩
  rw [h.2]
  rw [show (Finset.univ.filter (fun j => adj3 1 j = true)) = {0, 2} from by decide]
  rw [show deg adj3 1 = 2 from by decide]
  rw [Finset.sum_pair (by decide)]
  norm_num [rate3]

/-- C6: `winsor01_series` on an all-non-numeric series, or on any series
whose `[0.05, 0.95]` quantile window collapses, returns the all-zero vector
(it is a total function, so nothing is raised); re-applying it to an
already-`[0,1]`-scaled constant vector returns the same vector or the
all-zero vector. -/
theorem c6_winsor_degenerate :
    (∀ s : List (Option ℚ), s.filterMap id = [] →
        winsor01_series s = s.map (fun _ => some 0)) ∧
    (∀ s : List (Option ℚ),
        quantile (s.filterMap id) (95 / 100) ≤
          quantile (s.filterMap id) (5 / 100) →
        winsor01_series s = s.map (fun _ => some 0)) ∧
    (∀ (n : ℕ) (c : ℚ), 0 ≤ c → c ≤ 1 →
        winsor01_series (List.replicate n (some c)) =
            List.replicate n (some c) ∨
        winsor01_series (List.replicate n (some c)) =
            List.replicate n (some 0)) := by
  have hmain : ∀ s : List (Option ℚ),
      quantile (s.filterMap id) (95 / 100) ≤
        quantile (s.filterMap id) (5 / 100) →
      winsor01_series s = s.map (fun _ => some 0) := by
    intro s h
    simp only [winsor01_series]
    split_ifs with h1 <;> rfl
  refine ⟨?_, hmain, ?_⟩
  · intro s h
    simp only [winsor01_series, h]
    simp
  · intro n c hc0 hc1
    right
    cases n with
    | zero => simp [winsor01_series]
    | succ k =>
      have hq : ∀ q : ℚ, 0 ≤ q → q ≤ 1 →
          quantile ((List.replicate (k + 1) (some c)).filterMap id) q = c := by
        intro q h0 h1
        rw [filterMap_id_replicate]
        exact quantile_const _ c q (by simp)
          (fun x hx => List.eq_of_mem_replicate hx) h0 h1
      have hz := hmain (List.replicate (k + 1) (some c))
        (by rw [hq _ (by norm_num) (by norm_num), hq _ (by norm_num) (by norm_num)])
      rw [hz, List.map_replicate]

/-- C6 witness: an all-non-numeric series of length 2 maps to all zeros, and
re-applying the normalization to the constant `[0,1]`-scaled vector
`[1/2, 1/2, 1/2]` yields the same vector or all zeros. -/
theorem c6_witness :
    (([none, none] : List (Option ℚ)).filterMap id = [] ∧
      winsor01_series [none, none] = [some 0, some 0]) ∧
    ((0 : ℚ) ≤ 1 / 2 ∧ (1 / 2 : ℚ) ≤ 1 ∧
      (winsor01_series (List.replicate 3 (some (1 / 2))) =
          List.replicate 3 (some (1 / 2)) ∨
       winsor01_series (List.replicate 3 (some (1 / 2))) =
          List.replicate 3 (some 0))) := by
  refine ⟨⟨by decide, ?_⟩, by norm_num, by norm_num,
    c6_winsor_degenerate.2.2 3 (1 / 2) (by norm_num) (by norm_num)⟩
  have h := c6_winsor_degenerate.1 [none, none] (by decide)
  simpa using h

/-- C7, counterexample to the claim as stated: for the collapsed raw
forecast vector `[3, 3, 3]` (both quantiles equal 3) the emitted normalized
signal is `[0.5, 0.5, 0.5]`, not the all-zero vector the claim requires. -/
theorem c7_counterexample :
    cast_state_norm [3, 3, 3] = [1 / 2, 1 / 2, 1 / 2] ∧
    cast_state_norm [3, 3, 3] ≠ [0, 0, 0] := by
  have h : cast_state_norm [3, 3, 3] = [1 / 2, 1 / 2, 1 / 2] := by
    simp only [cast_state_norm]
    norm_num [quantile, List.insertionSort, List.orderedInsert]
  refine ⟨h, ?_⟩
  rw [h]
  intro hc
  have := List.head_eq_of_cons_eq hc
  norm_num at this

/-- C7, amended: when the quantile normalization window of the raw forecast
counts collapses (0.95 quantile at most the 0.05 quantile), the emitted
normalized signal is the constant `0.5` for every affected region — still in
`[0,1]`, recovered locally and never fatal (the function is total) — not the
all-zero vector. -/
theorem c7_collapse_emits_half (cast_raw : List ℚ)
    (h : quantile cast_raw (95 / 100) ≤ quantile cast_raw (5 / 100)) :
    cast_state_norm cast_raw = cast_raw.map (fun _ => 1 / 2) := by
  simp only [cast_state_norm]
  rw [if_neg (not_lt.mpr h)]

/-- C7 witness: the collapsed vector `[3, 3, 3]` emits `0.5` everywhere. -/
theorem c7_witness :
    quantile [3, 3, 3] (95 / 100) ≤ quantile [3, 3, 3] (5 / 100) ∧
    cast_state_norm [3, 3, 3] = ([3, 3, 3] : List ℚ).map (fun _ => 1 / 2) := by
  have hq : quantile [3, 3, 3] (95 / 100) ≤ quantile [3, 3, 3] (5 / 100) := by
    norm_num [quantile, List.insertionSort, List.orderedInsert]
  exact ⟨hq, c7_collapse_emits_half [3, 3, 3] hq⟩

/-- C8, counterexample to the claim as stated: with populations `[0, 1]` the
median over positive units is 1, so the claim's formula gives the
zero-population unit the weight `clip(sqrt(0/1), 0.5, 2.0) = 0.5` (squared:
`1/4`), but the code replaces the zero numerator by 1 before dividing and
yields weight `1.0` (squared: `1`). -/
theorem c8_counterexample :
    w_exposure_sq [0, 1] = [1, 1] ∧
    w_exposure_sq_spec [0, 1] = [1 / 4, 1] ∧
    w_exposure_sq [0, 1] ≠ w_exposure_sq_spec [0, 1] := by
  have h1 : w_exposure_sq [0, 1] = [1, 1] := by
    norm_num [w_exposure_sq, med_wra, series_median, List.insertionSort,
      List.orderedInsert, min_def, max_def]
  have h2 : w_exposure_sq_spec [0, 1] = [1 / 4, 1] := by
    norm_num [w_exposure_sq_spec, med_wra, series_median, List.insertionSort,
      List.orderedInsert, min_def, max_def]
  refine ⟨h1, h2, ?_⟩
  rw [h1, h2]
  intro hc
  have := List.head_eq_of_cons_eq hc
  norm_num at this

/-- C8, amended: the exposure weight is
`clip(sqrt(pop' / med), 0.5, 2.0)` where `pop'` is `pop_wra` with zeros
replaced by 1 and `med` is the median over units with nonzero `pop_wra`
(1 if there are none); stated on squared weights: a zero-population unit
receives squared weight `1/4` (weight `0.5`) exactly when the median is
at least 4, and every squared weight lies in `[1/4, 4]` (weights in
`[0.5, 2.0]`, so the non-finite default is never needed here). -/
theorem c8_exposure_weight_amended :
    (∀ (pops : List ℚ) (i : ℕ), i < pops.length →
        pops.getD i 0 = 0 → 4 ≤ med_wra pops →
        (w_exposure_sq pops).getD i 0 = 1 / 4) ∧
    (∀ (pops : List ℚ) (x : ℚ), x ∈ w_exposure_sq pops →
        1 / 4 ≤ x ∧ x ≤ 4) := by
  constructor
  · intro pops i hi h0 hm
    have hm0 : (0 : ℚ) < med_wra pops := by linarith
    have hlen : i < (w_exposure_sq pops).length := by
      simpa [w_exposure_sq] using hi
    rw [List.getD_eq_getElem _ _ hlen]
    rw [List.getD_eq_getElem _ _ hi] at h0
    simp only [w_exposure_sq, List.getElem_map, h0]
    rw [if_pos trivial]
    have h14 : (1 : ℚ) / med_wra pops ≤ 1 / 4 := by
      rw [div_le_div_iff₀ hm0 (by norm_num)]
      linarith
    rw [max_eq_right h14]
    rw [min_eq_left (by norm_num : (1 : ℚ) / 4 ≤ 4)]
  · intro pops x hx
    simp only [w_exposure_sq, List.mem_map] at hx
    obtain ⟨p, hp, rfl⟩ := hx
    constructor
    · exact le_min (le_max_right _ _) (by norm_num)
    · exact min_le_right _ _

/-- C8 witness: with populations `[0, 9]` the nonzero-median is 9 (at least
4), and the zero-population unit's squared weight is `1/4`, i.e. the weight
is clipped to `0.5`. -/
theorem c8_witness :
    ((0 : ℕ) < ([0, 9] : List ℚ).length ∧
      ([0, 9] : List ℚ).getD 0 0 = 0 ∧ 4 ≤ med_wra [0, 9]) ∧
    (w_exposure_sq [0, 9]).getD 0 0 = 1 / 4 := by
  have hm : med_wra [0, 9] = 9 := by
    norm_num [med_wra, series_median, List.insertionSort, List.orderedInsert]
  refine ⟨⟨by norm_num, by norm_num, by rw [hm]; norm_num⟩, ?_⟩
  exact c8_exposure_weight_amended.1 [0, 9] 0 (by norm_num) (by norm_num)
    (by rw [hm]; norm_num)

/-- C9: when the signal tables are uniquely keyed (one row per unit code),
the chain of left merges building the `final` table keeps the key column
exactly equal to the Administrative Registry list — so every registry unit
appears exactly once when the registry has no duplicate codes — and a left
merge of a unit that matches nothing yields its row with the signal
defaulted to 0 (the unit is not dropped). -/
theorem c9_registry_exactly_once (registry : List ℕ)
    (tables : List (List (ℕ × ℚ)))
    (ht : ∀ t ∈ tables, (t.map Prod.fst).Nodup) :
    final_keys registry tables = registry ∧
    (registry.Nodup → ∀ k ∈ registry,
        (final_keys registry tables).count k = 1) ∧
    (∀ (k : ℕ) (right : List (ℕ × ℚ)), k ∉ right.map Prod.fst →
        leftMergeFill [k] right = [(k, 0)]) := by
  have hfk : ∀ (tabs : List (List (ℕ × ℚ))),
      (∀ t ∈ tabs, (t.map Prod.fst).Nodup) →
      ∀ rows : List ℕ, final_keys rows tabs = rows := by
    intro tabs
    induction tabs with
    | nil => intro _ rows; rfl
    | cons t ts ih =>
      intro h rows
      show List.foldl leftMergeKeys rows (t :: ts) = rows
      rw [List.foldl_cons,
        mergeKeys_of_nodup t (h t (List.mem_cons_self t ts)) rows]
      exact ih (fun u hu => h u (List.mem_cons_of_mem t hu)) rows
  refine ⟨hfk tables ht registry, ?_, ?_⟩
  · intro hnd k hk
    rw [hfk tables ht registry]
    exact List.count_eq_one_of_mem hnd hk
  · intro k right hk
    have hfil : right.filter (fun kv => kv.1 = k) = [] := by
      rw [List.filter_eq_nil_iff]
      intro kv hkv hkk
      refine hk ?_
      have hkv1 : kv.1 = k := by simpa using hkk
      exact hkv1 ▸ List.mem_map_of_mem Prod.fst hkv
    simp [leftMergeFill, hfil]

/-- C9 witness: registry `[1, 2, 3]` merged against uniquely keyed tables
for units 1 and 2 keeps exactly the three registry rows; a unit matching
nothing gets the default signal 0. -/
theorem c9_witness :
    (∀ t ∈ [[(1, (5 : ℚ))], [(2, (7 : ℚ))]], (t.map Prod.fst).Nodup) ∧
    final_keys [1, 2, 3] [[(1, 5)], [(2, 7)]] = [1, 2, 3] ∧
    (final_keys [1, 2, 3] [[(1, 5)], [(2, 7)]]).count 2 = 1 ∧
    leftMergeFill [4] [(2, 7)] = [(4, 0)] := by
  have ht : ∀ t ∈ [[(1, (5 : ℚ))], [(2, (7 : ℚ))]], (t.map Prod.fst).Nodup := by
    intro t htm
    simp only [List.mem_cons, List.mem_singleton, List.not_mem_nil,
      or_false] at htm
    rcases htm with rfl | rfl <;> simp
  have h := c9_registry_exactly_once [1, 2, 3] [[(1, 5)], [(2, 7)]] ht
  exact ⟨ht, h.1,
    (h.1 ▸ h.2.1 (by decide) 2 (by decide)),
    h.2.2 4 [(2, 7)] (by decide)⟩

/-- C10 witness: a corrupt-JSON metadata file yields the empty record, the
reuse condition fails, and the decision equals the refresh flag. -/
theorem c10_witness :
    read_meta .corruptJson = none ∧
    can_use_cache true true (read_meta .corruptJson) 5 = false ∧
    do_refresh_acled true (can_use_cache true true (read_meta .corruptJson) 5)
      = true :=
  ⟨rfl,
   (c10_read_meta_defaults.2 .corruptJson rfl true true true 5).1,
   (c10_read_meta_defaults.2 .corruptJson rfl true true true 5).2⟩

end Pipeline
